import Mathlib

/-!
Verification of the search/filter/derived-state engine of the job-board
client (src/src/App.js).  The engine (filteredJobs, App.js lines 346-368)
and the filter-selection helpers (addFilter, removeFilter, clearFilters,
App.js lines 741-751) are embedded shallowly below; all fields used by the
engine are carried on the Job structure, with the optional tags field
modelled as an Option.
-/

namespace JobBoard

/-- A job record, restricted to the fields read by the filter engine.
The tags field is optional in the source data (JS undefined), modelled
with Option; the remaining fields are strings. -/
structure Job where
  title : String
  company : String
  location : String
  tpe : String
  stage : String
  tags : Option (List String)
deriving Repr, DecidableEq

/-- Contiguous-sublist test on character lists: the needle occurs as a
prefix of some suffix of the haystack. -/
def isInfixChars (sub : List Char) : List Char → Bool
  | [] => sub.isEmpty
  | c :: rest => sub.isPrefixOf (c :: rest) || isInfixChars sub rest

/-- JS String.prototype.includes: substring containment, here on the
underlying character lists. -/
def strIncludes (s sub : String) : Bool :=
  isInfixChars sub.data s.data

/-- JS String.prototype.toLowerCase, modelled characterwise. -/
def strToLower (s : String) : String :=
  ⟨s.data.map Char.toLower⟩

/-- Character-list version of JS String.prototype.trim: drop whitespace
from both ends. -/
def trimChars (s : List Char) : List Char :=
  ((s.dropWhile Char.isWhitespace).reverse.dropWhile Char.isWhitespace).reverse

/-- JS String.prototype.trim. -/
def strTrim (s : String) : String :=
  ⟨trimChars s.data⟩

/-- The search predicate of filteredJobs (App.js 349-353): the term is the
already trimmed and lowercased search string; an empty term passes, else
the lowercased title, lowercased company, or some lowercased tag must
contain the term; an undefined tags field contributes nothing. -/
def matchesSearch (term : String) (job : Job) : Bool :=
  term == "" ||
  strIncludes (strToLower job.title) term ||
  strIncludes (strToLower job.company) term ||
  (job.tags.getD []).any (fun t => strIncludes (strToLower t) term)

/-- The per-filter-value predicate of filteredJobs (App.js 359-366): exact
string equality against location, type, tags membership, or stage. -/
def matchesFilterValue (job : Job) (f : String) : Bool :=
  job.location == f ||
  job.tpe == f ||
  (job.tags.getD []).contains f ||
  job.stage == f

/-- The selectedFilters.every call of filteredJobs (App.js 359): every
selected value must match the job on one of the four fields. -/
def matchesAllFilters (job : Job) (selectedFilters : List String) : Bool :=
  selectedFilters.all (fun f => matchesFilterValue job f)

/-- The body of the callback passed to jobs.filter in filteredJobs
(App.js 348-367): short-circuit on the search predicate, pass when no
filters are selected, else require every selected filter value to match. -/
def jobPasses (term : String) (selectedFilters : List String) (job : Job) : Bool :=
  if !(matchesSearch term job) then false
  else if selectedFilters.length == 0 then true
  else matchesAllFilters job selectedFilters

/-- The filter engine (App.js 346-368): normalize the debounced search
term by trimming and lowercasing, then keep the jobs passing jobPasses. -/
def filteredJobs (jobs : List Job) (debouncedSearch : String)
    (selectedFilters : List String) : List Job :=
  let term := strToLower (strTrim debouncedSearch)
  jobs.filter (jobPasses term selectedFilters)

/-- addFilter (App.js 741-744): append the value unless already present. -/
def addFilter (selectedFilters : List String) (f : String) : List String :=
  if selectedFilters.contains f then selectedFilters
  else selectedFilters ++ [f]

/-- removeFilter (App.js 745-746): drop every occurrence of the value. -/
def removeFilter (selectedFilters : List String) (f : String) : List String :=
  selectedFilters.filter (fun x => x != f)

/-- The selection state read by the engine: the selected filter values and
the raw search term. -/
structure SelectionState where
  selectedFilters : List String
  searchTerm : String
deriving Repr, DecidableEq

/-- clearFilters (App.js 747-751): reset the selected filters to the empty
sequence and the raw search term to the empty string (the jobs reload it
also triggers is outside the selection state). -/
def clearFilters (_s : SelectionState) : SelectionState :=
  { selectedFilters := [], searchTerm := "" }

/-- The filter-selection states reachable from the empty selection under
the addFilter, removeFilter and clearFilters operations. -/
inductive Reachable : List String → Prop
  | init : Reachable []
  | add (s : List String) (f : String) : Reachable s → Reachable (addFilter s f)
  | remove (s : List String) (f : String) : Reachable s → Reachable (removeFilter s f)
  | clear (s : List String) : Reachable s → Reachable []

/-- The conjunction across selected filter values, spelled pointwise. -/
lemma matchesAllFilters_iff (j : Job) (F : List String) :
    matchesAllFilters j F = true ↔ ∀ f ∈ F, matchesFilterValue j f = true := by
  simp [matchesAllFilters, List.all_eq_true]

/-- Characterization of the job predicate as a conjunction. -/
lemma jobPasses_eq_true_iff (term : String) (F : List String) (j : Job) :
    jobPasses term F j = true ↔
      (matchesSearch term j = true ∧ matchesAllFilters j F = true) := by
  unfold jobPasses
  cases hs : matchesSearch term j with
  | false => simp
  | true =>
    cases F with
    | nil => simp [matchesAllFilters]
    | cons a l => simp

lemma filteredJobs_eq_filter (J : List Job) (t : String) (F : List String) :
    filteredJobs J t F = J.filter (jobPasses (strToLower (strTrim t)) F) := rfl

/-- A sample job record, used for concrete instantiations. -/
def sampleJob : Job :=
  { title := "Frontend Engineer", company := "TechFlow AG", location := "Remote",
    tpe := "Full-time", stage := "Seed", tags := some ["React", "TypeScript"] }

/-- Replacing an absent tags field by the empty tag set (used to state
that an undefined tags field behaves as an empty one). -/
def withNormalizedTags (j : Job) : Job :=
  { j with tags := some (j.tags.getD []) }

/-- The empty search term passes every job through the whole predicate. -/
lemma jobPasses_empty_empty (j : Job) :
    jobPasses (strToLower (strTrim "")) [] j = true := by
  have h : strToLower (strTrim "") = "" := by decide
  unfold jobPasses matchesSearch
  rw [h]
  simp

/-- Filtering with a pointwise stronger predicate yields a shorter list. -/
lemma length_filter_le_of_imp (p q : Job → Bool)
    (h : ∀ a, p a = true → q a = true) :
    ∀ l : List Job, (l.filter p).length ≤ (l.filter q).length := by
  intro l
  induction l with
  | nil => simp
  | cons a l ih =>
    by_cases hp : p a = true
    · rw [List.filter_cons_of_pos hp, List.filter_cons_of_pos (h a hp)]
      simpa using ih
    · rw [List.filter_cons_of_neg (by simpa using hp)]
      cases hq : q a with
      | false => rw [List.filter_cons_of_neg (by simp [hq])]; exact ih
      | true =>
        rw [List.filter_cons_of_pos hq]
        exact le_trans ih (Nat.le_succ _)

/-- Normalizing the tags field does not change the engine predicate. -/
lemma jobPasses_withNormalizedTags (term : String) (F : List String) (j : Job) :
    jobPasses term F (withNormalizedTags j) = jobPasses term F j := rfl

/-- C1: a job of J appears in the output of the engine iff it matches the
search term (true when the trimmed term is empty, else substring match on
lowercased title, company or some lowercased tag) and every selected
filter value matches one of location, type, tags membership or stage. -/
theorem C1_membership_characterization (J : List Job) (t : String)
    (F : List String) (j : Job) (hj : j ∈ J) :
    j ∈ filteredJobs J t F ↔
      (matchesSearch (strToLower (strTrim t)) j = true ∧
       matchesAllFilters j F = true) := by
  rw [filteredJobs_eq_filter, List.mem_filter, jobPasses_eq_true_iff]
  simp [hj]

/-- Witness for C1 at a concrete job list, term and filter sequence. -/
theorem C1_membership_characterization_witness :
    sampleJob ∈ [sampleJob] ∧
      (sampleJob ∈ filteredJobs [sampleJob] "front" ["React"] ↔
        (matchesSearch (strToLower (strTrim "front")) sampleJob = true ∧
         matchesAllFilters sampleJob ["React"] = true)) :=
  ⟨by decide,
   C1_membership_characterization [sampleJob] "front" ["React"] sampleJob (by decide)⟩

/-- C2: with the empty search term and no selected filters the engine is
the identity on the job list. -/
theorem C2_identity (J : List Job) : filteredJobs J "" [] = J := by
  rw [filteredJobs_eq_filter]
  exact List.filter_eq_self.mpr (fun a _ => jobPasses_empty_empty a)

/-- C3: the output of the engine is a sublist of the input: every output
element occurs in the input and the relative order is preserved. -/
theorem C3_order_preserving_sublist (J : List Job) (t : String)
    (F : List String) : (filteredJobs J t F).Sublist J := by
  rw [filteredJobs_eq_filter]
  exact List.filter_sublist J

/-- C4: the engine is idempotent: filtering its own output with the same
inputs changes nothing. -/
theorem C4_idempotent (J : List Job) (t : String) (F : List String) :
    filteredJobs (filteredJobs J t F) t F = filteredJobs J t F := by
  rw [filteredJobs_eq_filter, filteredJobs_eq_filter]
  exact List.filter_eq_self.mpr (fun a ha => (List.mem_filter.mp ha).2)

/-- C5: adding a filter value never increases the result size. -/
theorem C5_filters_monotone (J : List Job) (t : String) (F : List String)
    (x : String) :
    (filteredJobs J t (F ++ [x])).length ≤ (filteredJobs J t F).length := by
  rw [filteredJobs_eq_filter, filteredJobs_eq_filter]
  apply length_filter_le_of_imp
  intro a ha
  rw [jobPasses_eq_true_iff] at ha ⊢
  refine ⟨ha.1, ?_⟩
  rw [matchesAllFilters_iff]
  intro f hf
  exact (matchesAllFilters_iff a (F ++ [x])).mp ha.2 f (by simp [hf])

/-- C6: the engine only depends on the trimmed, lowercased search term:
terms equal after this normalization give equal results, and a term whose
trim is empty behaves as the empty term. -/
theorem C6_search_normalization (J : List Job) (F : List String)
    (t s w : String)
    (hcase : strToLower (strTrim t) = strToLower (strTrim s))
    (hws : strTrim w = "") :
    filteredJobs J t F = filteredJobs J s F ∧
      filteredJobs J w F = filteredJobs J "" F := by
  have h0 : strTrim "" = "" := by decide
  constructor
  · rw [filteredJobs_eq_filter, filteredJobs_eq_filter, hcase]
  · rw [filteredJobs_eq_filter, filteredJobs_eq_filter, hws, h0]

/-- Witness for C6 with an uppercase term and a whitespace-only term. -/
theorem C6_search_normalization_witness :
    strToLower (strTrim "REACT") = strToLower (strTrim "react") ∧
      strTrim "   " = "" ∧
      (filteredJobs [sampleJob] "REACT" [] = filteredJobs [sampleJob] "react" [] ∧
       filteredJobs [sampleJob] "   " [] = filteredJobs [sampleJob] "" []) :=
  ⟨by decide, by decide,
   C6_search_normalization [sampleJob] [] "REACT" "react" "   " (by decide) (by decide)⟩

/-- C7: the engine is a total function, and an absent tags field behaves
exactly as the empty tag set: normalizing tags commutes with the engine
and changes neither the search predicate nor the filter-value predicate. -/
theorem C7_total_undefined_tags (J : List Job) (t : String)
    (F : List String) (j : Job) (f : String) :
    filteredJobs (J.map withNormalizedTags) t F
        = (filteredJobs J t F).map withNormalizedTags ∧
      matchesSearch (strToLower (strTrim t)) (withNormalizedTags j)
        = matchesSearch (strToLower (strTrim t)) j ∧
      matchesFilterValue (withNormalizedTags j) f = matchesFilterValue j f := by
  refine ⟨?_, rfl, rfl⟩
  rw [filteredJobs_eq_filter, filteredJobs_eq_filter]
  induction J with
  | nil => rfl
  | cons a J ih =>
    rw [List.map_cons, List.filter_cons, List.filter_cons,
      jobPasses_withNormalizedTags]
    cases jobPasses (strToLower (strTrim t)) F a with
    | false => simpa using ih
    | true => simpa using ih

/-- Every reachable filter selection has pairwise-distinct values. -/
lemma reachable_nodup (s : List String) (h : Reachable s) : s.Nodup := by
  induction h with
  | init => exact List.nodup_nil
  | add s f _ ih =>
    unfold addFilter
    by_cases hc : s.contains f = true
    · rw [if_pos hc]; exact ih
    · rw [if_neg hc]
      have hf : f ∉ s := by simpa using hc
      exact List.Nodup.append ih (List.nodup_singleton f)
        (by simpa [List.Disjoint] using fun a ha hb => hf (by simpa [hb] using ha))
  | remove s f _ ih => exact ih.filter _
  | clear s _ _ => exact List.nodup_nil

/-- C8: every state reachable from the empty selection under addFilter,
removeFilter and clearFilters has pairwise-distinct filter values, and
addFilter leaves a state already containing the value unchanged. -/
theorem C8_selection_nodup (s : List String) (f : String) (h : Reachable s) :
    s.Nodup ∧ (f ∈ s → addFilter s f = s) := by
  refine ⟨reachable_nodup s h, fun hf => ?_⟩
  unfold addFilter
  rw [if_pos (by simpa using hf)]

/-- Witness for C8 at the state reached by one addFilter. -/
theorem C8_selection_nodup_witness :
    (["a"] : List String).Nodup ∧
      ("a" ∈ (["a"] : List String) → addFilter ["a"] "a" = ["a"]) :=
  C8_selection_nodup ["a"] "a"
    (by
      have h : addFilter [] "a" = ["a"] := by decide
      exact h ▸ Reachable.add [] "a" Reachable.init)

/-- C9: filter-value matching is case-sensitive exact equality: a job
located at Remote is excluded by the filter value remote in lowercase but
included by the exact value. -/
theorem C9_filter_values_case_sensitive :
    filteredJobs [sampleJob] "" ["remote"] = [] ∧
      filteredJobs [sampleJob] "" ["Remote"] = [sampleJob] := by
  decide

/-- C10: clearFilters resets both selection inputs of the engine: the
selected filter sequence becomes empty and the raw search term becomes
the empty string. -/
theorem C10_clearFilters_resets_both (s : SelectionState) :
    (clearFilters s).selectedFilters = [] ∧ (clearFilters s).searchTerm = "" :=
  ⟨rfl, rfl⟩

end JobBoard
